import Mathlib

/-!
# Glacier vault clean-up (`main.go`)

A shallow embedding of the vault clean-up tool: the job listing
(`GetRetriavalJobs`, `GetMostRecentJob`), the inventory download and decoding
(`GetVaultInventory`) and the clean-up itself (`EmptyVault`, `DeleteArchive`).

Remote calls and the operator's prompt are answered by a `World`; every
function returns the list of `Event`s it produced (remote calls, prompts, log
lines) together with its Go result.  Nil dereferences, indexing past the end
and `panic(err)` are the `Outcome.panic` result.
-/

namespace GlobalWarming

/-! ## Go values -/

/-- Go `error` values met by the program. -/
inductive GoError
  /-- an error returned by a remote call, a reader or the prompt library -/
  | failure (msg : String)
  /-- the `*json.SyntaxError` of `json.Unmarshal`: the bytes are not JSON text -/
  | malformedJSON
  /-- the `*json.UnmarshalTypeError` of `json.Unmarshal`: a JSON value of kind
  `value` met a Go target of type `goType` -/
  | unmarshalType (value : String) (goType : String)
  deriving DecidableEq, Repr

/-- Result of a Go function returning `(value, error)`, or panicking. -/
inductive Outcome (α : Type)
  | ok (a : α)
  | error (e : GoError)
  | panic
  deriving DecidableEq, Repr

/-! ## JSON documents and `json.Unmarshal` into `VaultInventory`

`json.Unmarshal` is library code; it is modelled on parsed JSON values after
the behaviour of `encoding/json`: a member of an object is matched to a struct
field by its JSON name, exactly or up to letter case, and skipped when it
matches none; a field without a member keeps its value; `null` leaves a string,
an integer or a struct as it is and sets a slice to nil; a value of the wrong
kind is an `UnmarshalTypeError` that does not stop the decoding, the first such
error being returned; an array is decoded element by element into the slice,
reusing the elements the slice already holds.
-/

/-- JSON number literal: an integer literal, or one with a fraction or an
exponent (kept as its text). -/
inductive JsonNumber
  | integer (v : Int)
  | nonInteger (lit : String)

/-- JSON value; an object keeps its members in document order, duplicates
included. -/
inductive Json
  | null
  | bool (b : Bool)
  | num (n : JsonNumber)
  | str (s : String)
  | arr (items : List Json)
  | obj (members : List (String × Json))

/-- Bytes of a job output: either not JSON text at all, or the text of a JSON
document. -/
inductive Payload
  | invalid
  | document (v : Json)

/-- Source: `type ArchiveList struct` (one archive of the inventory). -/
structure ArchiveList where
  ArchiveID : String
  ArchiveDescription : String
  CreationDate : String
  Size : Int
  SHA256TreeHash : String
  deriving DecidableEq, Repr

/-- Source: `type VaultInventory struct`. -/
structure VaultInventory where
  VaultARN : String
  InventoryDate : String
  ArchiveList : List ArchiveList
  deriving DecidableEq, Repr

/-- Go zero value of `ArchiveList`. -/
def ArchiveList.zero : ArchiveList := ⟨"", "", "", 0, ""⟩

/-- Go zero value `VaultInventory{}`. -/
def VaultInventory.zero : VaultInventory := ⟨"", "", []⟩

/-- Fields of `ArchiveList`, in declaration order. -/
inductive ArchiveField
  | ArchiveID | ArchiveDescription | CreationDate | Size | SHA256TreeHash
  deriving DecidableEq, Repr

/-- JSON name of an `ArchiveList` field (its `json:"..."` tag). -/
def ArchiveField.jsonName : ArchiveField → String
  | .ArchiveID => "ArchiveId"
  | .ArchiveDescription => "ArchiveDescription"
  | .CreationDate => "CreationDate"
  | .Size => "Size"
  | .SHA256TreeHash => "SHA256TreeHash"

/-- Fields of `ArchiveList` in declaration order. -/
def ArchiveField.all : List ArchiveField :=
  [.ArchiveID, .ArchiveDescription, .CreationDate, .Size, .SHA256TreeHash]

/-- Fields of `VaultInventory`, in declaration order. -/
inductive InventoryField
  | VaultARN | InventoryDate | ArchiveList
  deriving DecidableEq, Repr

/-- JSON name of a `VaultInventory` field (its `json:"..."` tag). -/
def InventoryField.jsonName : InventoryField → String
  | .VaultARN => "VaultARN"
  | .InventoryDate => "InventoryDate"
  | .ArchiveList => "ArchiveList"

/-- Fields of `VaultInventory` in declaration order. -/
def InventoryField.all : List InventoryField := [.VaultARN, .InventoryDate, .ArchiveList]

/-- Case folding of `encoding/json` key matching (`foldName`): ASCII letters
to upper case, and the two non-ASCII runes whose fold class holds an ASCII
letter (KELVIN SIGN, LATIN SMALL LETTER LONG S) to that letter.  Other runes
are left as they are: no fold of them equals an ASCII field name. -/
def foldRune (c : Char) : Char :=
  if 97 ≤ c.toNat ∧ c.toNat ≤ 122 then Char.ofNat (c.toNat - 32)
  else if c.toNat = 0x212A then 'K'
  else if c.toNat = 0x17F then 'S'
  else c

/-- Folded form of a key. -/
def foldName (s : String) : List Char := s.data.map foldRune

/-- Key lookup of `encoding/json`: an exact match of the JSON name is
preferred, a case-insensitive match is accepted. -/
def matchKey {φ : Type} (all : List φ) (jsonName : φ → String) (key : String) : Option φ :=
  match all.find? (fun f => jsonName f = key) with
  | some f => some f
  | none => all.find? (fun f => foldName (jsonName f) = foldName key)

/-- First error wins (`decodeState.saveError`). -/
def saveError (saved new : Option GoError) : Option GoError :=
  match saved with
  | some e => some e
  | none => new

/-- Store a JSON value into a Go `string`: a string is stored, `null` leaves
the target as it is, anything else is an `UnmarshalTypeError`. -/
def storeString (cur : String) : Json → String × Option GoError
  | .str s => (s, none)
  | .null => (cur, none)
  | .bool _ => (cur, some (.unmarshalType "bool" "string"))
  | .num _ => (cur, some (.unmarshalType "number" "string"))
  | .arr _ => (cur, some (.unmarshalType "array" "string"))
  | .obj _ => (cur, some (.unmarshalType "object" "string"))

/-- Least and greatest `int64`. -/
def minInt64 : Int := -9223372036854775808
/-- Greatest `int64`. -/
def maxInt64 : Int := 9223372036854775807

/-- Store a JSON value into a Go `int64`: an integer literal in range is
stored (`strconv.ParseInt(s, 10, 64)`), `null` leaves the target as it is,
anything else is an `UnmarshalTypeError`. -/
def storeInt64 (cur : Int) : Json → Int × Option GoError
  | .num (.integer v) =>
    if minInt64 ≤ v ∧ v ≤ maxInt64 then (v, none)
    else (cur, some (.unmarshalType ("number " ++ toString v) "int64"))
  | .num (.nonInteger lit) => (cur, some (.unmarshalType ("number " ++ lit) "int64"))
  | .null => (cur, none)
  | .bool _ => (cur, some (.unmarshalType "bool" "int64"))
  | .str _ => (cur, some (.unmarshalType "string" "int64"))
  | .arr _ => (cur, some (.unmarshalType "array" "int64"))
  | .obj _ => (cur, some (.unmarshalType "object" "int64"))

/-- One member `key: v` of a JSON object decoded into an `ArchiveList`
struct; a key matching no field is skipped. -/
def decodeArchiveMember (a : ArchiveList) (key : String) (v : Json) :
    ArchiveList × Option GoError :=
  match matchKey ArchiveField.all ArchiveField.jsonName key with
  | none => (a, none)
  | some .ArchiveID => let r := storeString a.ArchiveID v; ({ a with ArchiveID := r.1 }, r.2)
  | some .ArchiveDescription =>
    let r := storeString a.ArchiveDescription v; ({ a with ArchiveDescription := r.1 }, r.2)
  | some .CreationDate =>
    let r := storeString a.CreationDate v; ({ a with CreationDate := r.1 }, r.2)
  | some .Size => let r := storeInt64 a.Size v; ({ a with Size := r.1 }, r.2)
  | some .SHA256TreeHash =>
    let r := storeString a.SHA256TreeHash v; ({ a with SHA256TreeHash := r.1 }, r.2)

/-- Members of a JSON object decoded in document order into an `ArchiveList`
struct. -/
def decodeArchiveMembers (a : ArchiveList) (members : List (String × Json)) :
    ArchiveList × Option GoError :=
  members.foldl
    (fun st m => let r := decodeArchiveMember st.1 m.1 m.2; (r.1, saveError st.2 r.2))
    (a, none)

/-- JSON value decoded into an `ArchiveList` struct (a slice element). -/
def decodeArchive (a : ArchiveList) : Json → ArchiveList × Option GoError
  | .obj members => decodeArchiveMembers a members
  | .null => (a, none)
  | .bool _ => (a, some (.unmarshalType "bool" "main.ArchiveList"))
  | .num _ => (a, some (.unmarshalType "number" "main.ArchiveList"))
  | .str _ => (a, some (.unmarshalType "string" "main.ArchiveList"))
  | .arr _ => (a, some (.unmarshalType "array" "main.ArchiveList"))

/-- JSON array decoded into a slice: item `i` is decoded into the element at
index `i` of the backing array `mem` (the zero value past its end). -/
def decodeArchiveItems : List ArchiveList → List Json → List ArchiveList × Option GoError
  | _, [] => ([], none)
  | mem, item :: items =>
    let r := decodeArchive (mem.headD ArchiveList.zero) item
    let rs := decodeArchiveItems mem.tail items
    (r.1 :: rs.1, saveError r.2 rs.2)

/-- State of `json.Unmarshal` decoding into `&inventory`: the struct, the
elements of the slice's backing array past its length, the saved error. -/
structure DecodeState where
  inventory : VaultInventory
  spare : List ArchiveList
  err : Option GoError

/-- JSON value decoded into the `ArchiveList []ArchiveList` field: an array
resizes the slice to its length, `null` sets the slice to nil, anything else
is an `UnmarshalTypeError`. -/
def decodeArchiveListField (st : DecodeState) (v : Json) : DecodeState :=
  let fail (value : String) : DecodeState :=
    { st with err := saveError st.err (some (.unmarshalType value "[]main.ArchiveList")) }
  match v with
  | .arr [] => { st with inventory := { st.inventory with ArchiveList := [] }, spare := [] }
  | .arr items =>
    let mem := st.inventory.ArchiveList ++ st.spare
    let r := decodeArchiveItems mem items
    { inventory := { st.inventory with ArchiveList := r.1 }
      spare := mem.drop items.length
      err := saveError st.err r.2 }
  | .null => { st with inventory := { st.inventory with ArchiveList := [] }, spare := [] }
  | .bool _ => fail "bool"
  | .num _ => fail "number"
  | .str _ => fail "string"
  | .obj _ => fail "object"

/-- One member `key: v` of the top-level JSON object decoded into the
`VaultInventory` struct; a key matching no field is skipped. -/
def decodeInventoryMember (st : DecodeState) (key : String) (v : Json) : DecodeState :=
  match matchKey InventoryField.all InventoryField.jsonName key with
  | none => st
  | some .VaultARN =>
    let r := storeString st.inventory.VaultARN v
    { st with inventory := { st.inventory with VaultARN := r.1 }, err := saveError st.err r.2 }
  | some .InventoryDate =>
    let r := storeString st.inventory.InventoryDate v
    { st with inventory := { st.inventory with InventoryDate := r.1 }, err := saveError st.err r.2 }
  | some .ArchiveList => decodeArchiveListField st v

/-- JSON document decoded into `&inventory`: an object is decoded member by
member, `null` leaves the struct as it is, anything else is an
`UnmarshalTypeError`. -/
def decodeInventory (inventory : VaultInventory) : Json → DecodeState
  | .obj members =>
    members.foldl (fun st m => decodeInventoryMember st m.1 m.2) ⟨inventory, [], none⟩
  | .null => ⟨inventory, [], none⟩
  | .bool _ => ⟨inventory, [], some (.unmarshalType "bool" "main.VaultInventory")⟩
  | .num _ => ⟨inventory, [], some (.unmarshalType "number" "main.VaultInventory")⟩
  | .str _ => ⟨inventory, [], some (.unmarshalType "string" "main.VaultInventory")⟩
  | .arr _ => ⟨inventory, [], some (.unmarshalType "array" "main.VaultInventory")⟩

/-- The call `json.Unmarshal(body, &inventory)`: the struct after the call and
the returned error.  Bytes that are not JSON text are a syntax error and
leave the struct untouched; a type error does not stop the decoding, the
first one is returned at the end. -/
def jsonUnmarshal (body : Payload) (inventory : VaultInventory) : VaultInventory × Option GoError :=
  match body with
  | .invalid => (inventory, some .malformedJSON)
  | .document v => let st := decodeInventory inventory v; (st.inventory, st.err)

/-! ## The remote service, the operator and the trace of a run -/

/-- Source: `types.GlacierJobDescription`, the fields the program reads; both
are `*string` in the SDK and are dereferenced without a nil check. -/
structure GlacierJobDescription where
  JobId : Option String
  CreationDate : Option String
  deriving DecidableEq, Repr

/-- Source: `glacier.ListJobsOutput`, the field the program reads. -/
structure ListJobsOutput where
  JobList : List GlacierJobDescription

/-- An `io.ReadCloser` as `io.ReadAll` sees it: the bytes it yields and the
error the read ends with, if any. -/
structure Reader where
  data : Payload
  err : Option GoError

/-- Source: `glacier.GetJobOutputOutput`, the field the program reads; `Body`
is an interface value and may be nil. -/
structure GetJobOutputOutput where
  Body : Option Reader

/-- Answer of `promptui.Select.Run`: the selected item, or an error, which
the library always returns together with the empty string. -/
inductive PromptAnswer
  | selected (choice : String)
  | failed (err : GoError)

/-- The item returned by `Run` (second result). -/
def PromptAnswer.choice : PromptAnswer → String
  | .selected c => c
  | .failed _ => ""

/-- The error returned by `Run` (third result). -/
def PromptAnswer.err : PromptAnswer → Option GoError
  | .selected _ => none
  | .failed e => some e

/-- Everything outside the program: the responses of the Glacier client (an
output pointer and an error, as the SDK returns them) and the operator's
answer.  `DeleteArchive` is asked with the number of earlier `DeleteArchive`
calls of the run, so that every pattern of outcomes can be expressed. -/
structure World where
  ListJobs : (accountId vaultName : String) → Option ListJobsOutput × Option GoError
  GetJobOutput : (accountId jobId vaultName : String) → Option GetJobOutputOutput × Option GoError
  DeleteArchive : Nat → (accountId vaultName archiveId : String) → Option GoError
  DeleteVaultPrompt : PromptAnswer

/-- Lines written with `log.Printf` / `log.Println`. -/
inductive LogLine
  | errorDescribingJob (e : GoError)
  | errorGettingVaultInventory (e : GoError)
  | noArchivesToDelete
  | promptFailed (e : GoError)
  | archivesToDelete (n : Nat)
  | deletingArchives
  | deletingArchive (archiveId : String)
  | errorDeletingArchive (e : GoError)
  | noExistingJobs (vaultName accountId : String)
  deriving DecidableEq, Repr

/-- Observable steps of a run, in the order they happen. -/
inductive Event
  | ListJobs (accountId vaultName : String)
  | GetJobOutput (accountId jobId vaultName : String)
  | ReadAll
  | Unmarshal
  | Prompt (label : String)
  | DeleteArchive (accountId vaultName archiveId : String)
  | DeleteVault (vaultName : String)
  | Log (line : LogLine)
  deriving DecidableEq, Repr

/-- Archive ids of the `DeleteArchive` calls of a trace, in order. -/
def deleteArchiveCalls : List Event → List (String × String × String)
  | [] => []
  | .DeleteArchive a v i :: t => (a, v, i) :: deleteArchiveCalls t
  | _ :: t => deleteArchiveCalls t

/-- Vault names of the `DeleteVault` calls of a trace, in order. -/
def deleteVaultCalls : List Event → List String
  | [] => []
  | .DeleteVault v :: t => v :: deleteVaultCalls t
  | _ :: t => deleteVaultCalls t

/-- Labels of the prompts of a trace, in order. -/
def prompts : List Event → List String
  | [] => []
  | .Prompt l :: t => l :: prompts t
  | _ :: t => prompts t

/-- Errors logged as "error deleting archive" in a trace, in order. -/
def loggedDeleteErrors : List Event → List GoError
  | [] => []
  | .Log (.errorDeletingArchive e) :: t => e :: loggedDeleteErrors t
  | _ :: t => loggedDeleteErrors t

/-! ## Inventory download and vault clean-up -/

/-- Source: `GetVaultInventory`.  The error of `GetJobOutput` is logged and
the function goes on to `output.Body`; the error of `io.ReadAll` is dropped;
only the error of `json.Unmarshal` is returned. -/
def GetVaultInventory (w : World) (accountId vaultName jobId : String) :
    List Event × Outcome VaultInventory :=
  let resp := w.GetJobOutput accountId jobId vaultName
  let t := [Event.GetJobOutput accountId jobId vaultName]
  let t := match resp.2 with
    | some err => t ++ [.Log (.errorDescribingJob err)]
    | none => t
  match resp.1 with
  | none => (t, .panic)
  | some output =>
    match output.Body with
    | none => (t, .panic)
    | some reader =>
      let body := reader.data
      let t := t ++ [.ReadAll]
      let r := jsonUnmarshal body VaultInventory.zero
      let t := t ++ [.Unmarshal]
      match r.2 with
      | some err => (t, .error err)
      | none => (t, .ok r.1)

/-- Source: `DeleteArchive`, as call number `k` of the run. -/
def DeleteArchive (w : World) (k : Nat) (accountId vaultName archiveId : String) :
    List Event × Option GoError :=
  ([.Log (.deletingArchive archiveId), .DeleteArchive accountId vaultName archiveId],
    w.DeleteArchive k accountId vaultName archiveId)

/-- The loop `for _, archive := range output.ArchiveList` of `EmptyVault`,
from call number `k` on. -/
def deleteArchives (w : World) (accountId vaultName : String) :
    Nat → List ArchiveList → List Event
  | _, [] => []
  | k, archive :: rest =>
    let r := DeleteArchive w k accountId vaultName archive.ArchiveID
    let t := match r.2 with
      | some err => r.1 ++ [.Log (.errorDeletingArchive err)]
      | none => r.1
    t ++ deleteArchives w accountId vaultName (k + 1) rest

/-- Source: `EmptyVault`; `Outcome.ok ()` is the `nil` error. -/
def EmptyVault (w : World) (accountId vaultName jobId : String) : List Event × Outcome Unit :=
  match GetVaultInventory w accountId vaultName jobId with
  | (t, .panic) => (t, .panic)
  | (t, .error err) => (t ++ [.Log (.errorGettingVaultInventory err)], .error err)
  | (t, .ok output) =>
    if output.ArchiveList.length = 0 then
      let t := t ++ [.Log .noArchivesToDelete, .Prompt "Delete Vault?"]
      let choice := w.DeleteVaultPrompt.choice
      let t := match w.DeleteVaultPrompt.err with
        | some err => t ++ [.Log (.promptFailed err)]
        | none => t
      let t := if choice = "Yes" then t ++ [.DeleteVault vaultName] else t
      (t, .ok ())
    else
      let t := t ++ [.Log (.archivesToDelete output.ArchiveList.length), .Log .deletingArchives]
      (t ++ deleteArchives w accountId vaultName 0 output.ArchiveList, .ok ())

/-! ## Job listing

`sort.Slice` is library code.  The two functions that call it take the sorting
routine as an argument; `insertionSortLessFunc` is the routine Go runs on short
slices.
-/

/-- UTF-8 bytes of a string, the form in which Go holds and compares it. -/
def utf8Bytes (s : String) : List Nat :=
  s.data.foldr (fun c acc => (String.utf8EncodeChar c).map UInt8.toNat ++ acc) []

/-- Byte-wise lexicographic order. -/
def bytesLess : List Nat → List Nat → Bool
  | _, [] => false
  | [], _ :: _ => true
  | a :: as, b :: bs => if a < b then true else if b < a then false else bytesLess as bs

/-- Go's `<` on strings. -/
def stringLess (x y : String) : Bool := bytesLess (utf8Bytes x) (utf8Bytes y)

/-- The `less` closure of both `sort.Slice` calls:
`*jobs[i].CreationDate < *jobs[j].CreationDate`; `none` is the nil
dereference. -/
def lessCreationDate (a b : GlacierJobDescription) : Option Bool :=
  match a.CreationDate, b.CreationDate with
  | some x, some y => some (stringLess x y)
  | _, _ => none

/-- A sorting routine in the role of `sort.Slice`: given `less` it returns the
reordered slice, or `none` when `less` panicked. -/
abbrev SliceSort :=
  (GlacierJobDescription → GlacierJobDescription → Option Bool) →
    List GlacierJobDescription → Option (List GlacierJobDescription)

/-- Inner loop of Go's `insertionSortLessFunc`: the new element moves left
while `less(j, j-1)` holds.  The sorted part is held last element first. -/
def insertLeftward (less : GlacierJobDescription → GlacierJobDescription → Option Bool)
    (x : GlacierJobDescription) : List GlacierJobDescription → Option (List GlacierJobDescription)
  | [] => some [x]
  | y :: rest =>
    match less x y with
    | none => none
    | some true => (insertLeftward less x rest).map (fun r => y :: r)
    | some false => some (x :: y :: rest)

/-- Go's `insertionSortLessFunc`, the routine `sort.Slice` runs on slices of
at most 12 elements. -/
def insertionSortLessFunc : SliceSort := fun less jobs =>
  (jobs.foldlM (fun sorted x => insertLeftward less x sorted) []).map List.reverse

/-- Source: `GetMostRecentJob`, over the sorting routine `sortSlice`. -/
def GetMostRecentJob (sortSlice : SliceSort) (jobs : List GlacierJobDescription) :
    Outcome GlacierJobDescription :=
  match sortSlice lessCreationDate jobs with
  | none => .panic
  | some [] => .panic
  | some (job :: _) => .ok job

/-- The loop `for _, job := range output.JobList` of `GetRetriavalJobs`:
`*job.JobId` of every job, `none` on a nil `JobId`. -/
def appendJobIds (jobs : List String) : List GlacierJobDescription → Option (List String)
  | [] => some jobs
  | job :: rest =>
    match job.JobId with
    | none => none
    | some id => appendJobIds (jobs ++ [id]) rest

/-- Source: `GetRetriavalJobs`, over the sorting routine `sortSlice`. -/
def GetRetriavalJobs (sortSlice : SliceSort) (w : World) (accountId vaultName : String) :
    List Event × Outcome (List String) :=
  let jobs := ["Initiate New Retrieval Job"]
  let resp := w.ListJobs accountId vaultName
  let t := [Event.ListJobs accountId vaultName]
  match resp.2 with
  | some _ => (t, .panic)
  | none =>
    match resp.1 with
    | none => (t, .panic)
    | some output =>
      let t := if output.JobList.length = 0 then
          t ++ [.Log (.noExistingJobs vaultName accountId)] else t
      match sortSlice lessCreationDate output.JobList with
      | none => (t, .panic)
      | some sorted =>
        match appendJobIds jobs sorted with
        | none => (t, .panic)
        | some jobs => (t, .ok (jobs ++ ["Exit"]))

/-- What `sort.Slice` guarantees for the `less` of this program: on a slice
whose jobs all carry a creation date it returns, without panicking, a
reordering of the slice in which no job is followed by one that `less` puts
before it. -/
def SortsByCreationDate (sortSlice : SliceSort) : Prop :=
  ∀ jobs : List GlacierJobDescription, (∀ j ∈ jobs, j.CreationDate ≠ none) →
    ∃ sorted, sortSlice lessCreationDate jobs = some sorted ∧ sorted.Perm jobs ∧
      sorted.Pairwise (fun a b => lessCreationDate b a = some false)

/-- The members of the JSON object that spells out the archive `a`, in the
order of the struct. -/
def archiveMembers (a : ArchiveList) : List (String × Json) :=
  [("ArchiveId", .str a.ArchiveID), ("ArchiveDescription", .str a.ArchiveDescription),
    ("CreationDate", .str a.CreationDate), ("Size", .num (.integer a.Size)),
    ("SHA256TreeHash", .str a.SHA256TreeHash)]

/-- The JSON value `j` is a well-formed archive entry spelling out `a`: an
object with exactly the four string members and the integer member `Size`, in
any order, the size being a 64-bit integer. -/
def WellFormedArchive (a : ArchiveList) (j : Json) : Prop :=
  ∃ members, j = .obj members ∧ members.Perm (archiveMembers a) ∧
    minInt64 ≤ a.Size ∧ a.Size ≤ maxInt64

/-- The members of the JSON object that spells out the inventory `inv`, with
`items` as its archive entries, in the order of the struct. -/
def inventoryMembers (inv : VaultInventory) (items : List Json) : List (String × Json) :=
  [("VaultARN", .str inv.VaultARN), ("InventoryDate", .str inv.InventoryDate),
    ("ArchiveList", .arr items)]

/-! ## Example inputs -/

/-- One archive of an example inventory payload. -/
def exampleArchiveJson (archiveId : String) (size : Int) : Json :=
  .obj [("ArchiveId", .str archiveId), ("ArchiveDescription", .str "backup"),
    ("CreationDate", .str "2023-01-15T10:00:00Z"), ("Size", .num (.integer size)),
    ("SHA256TreeHash", .str "9f86d081884c7d65")]

/-- The archive `exampleArchiveJson` stands for. -/
def exampleArchive (archiveId : String) (size : Int) : ArchiveList :=
  ⟨archiveId, "backup", "2023-01-15T10:00:00Z", size, "9f86d081884c7d65"⟩

/-- An example inventory payload listing the given archive ids. -/
def exampleInventoryJson (archiveIds : List String) : Json :=
  .obj [("VaultARN", .str "arn:aws:glacier:eu-west-1:123456789012:vaults/photos"),
    ("InventoryDate", .str "2023-02-01T00:00:00Z"),
    ("ArchiveList", .arr (archiveIds.map (fun i => exampleArchiveJson i 1024)))]

/-- The inventory `exampleInventoryJson` stands for. -/
def exampleInventory (archiveIds : List String) : VaultInventory :=
  ⟨"arn:aws:glacier:eu-west-1:123456789012:vaults/photos", "2023-02-01T00:00:00Z",
    archiveIds.map (fun i => exampleArchive i 1024)⟩

/-- An example world: the job output is `payload`, the `DeleteArchive` calls
whose number is in `failing` fail, the operator answers `answer`, and the vault
has the two jobs `J-new` and `J-old`. -/
def exampleWorld (payload : Payload) (failing : List Nat) (answer : PromptAnswer) : World where
  ListJobs := fun _ _ =>
    (some ⟨[⟨some "J-new", some "2024-03-01T00:00:00Z"⟩, ⟨some "J-old", some "2023-03-01T00:00:00Z"⟩]⟩,
      none)
  GetJobOutput := fun _ _ _ => (some ⟨some ⟨payload, none⟩⟩, none)
  DeleteArchive := fun k _ _ _ => if k ∈ failing then some (.failure "ServiceUnavailable") else none
  DeleteVaultPrompt := answer

/-- An example world whose `GetJobOutput` call fails the way the SDK fails: no
output, an error. -/
def failedDownloadWorld : World where
  ListJobs := fun _ _ => (none, some (.failure "AccessDenied"))
  GetJobOutput := fun _ _ _ => (none, some (.failure "ResourceNotFound"))
  DeleteArchive := fun _ _ _ _ => none
  DeleteVaultPrompt := .selected "No"

/-- An example world whose `GetJobOutput` call returns an error together with
an output whose body is the inventory of archive `A1`. -/
def failedDownloadWithBodyWorld : World where
  ListJobs := fun _ _ => (none, some (.failure "AccessDenied"))
  GetJobOutput := fun _ _ _ =>
    (some ⟨some ⟨.document (exampleInventoryJson ["A1"]), none⟩⟩, some (.failure "Throttled"))
  DeleteArchive := fun _ _ _ _ => none
  DeleteVaultPrompt := .selected "No"

/-! ## Traces -/

theorem deleteArchiveCalls_append (s t : List Event) :
    deleteArchiveCalls (s ++ t) = deleteArchiveCalls s ++ deleteArchiveCalls t := by
  induction s with
  | nil => rfl
  | cons e s ih => cases e <;> simp [deleteArchiveCalls, ih]

theorem deleteVaultCalls_append (s t : List Event) :
    deleteVaultCalls (s ++ t) = deleteVaultCalls s ++ deleteVaultCalls t := by
  induction s with
  | nil => rfl
  | cons e s ih => cases e <;> simp [deleteVaultCalls, ih]

theorem prompts_append (s t : List Event) : prompts (s ++ t) = prompts s ++ prompts t := by
  induction s with
  | nil => rfl
  | cons e s ih => cases e <;> simp [prompts, ih]

theorem loggedDeleteErrors_append (s t : List Event) :
    loggedDeleteErrors (s ++ t) = loggedDeleteErrors s ++ loggedDeleteErrors t := by
  induction s with
  | nil => rfl
  | cons e s ih =>
    cases e with
    | Log line => cases line <;> simp [loggedDeleteErrors, ih]
    | _ => simp [loggedDeleteErrors, ih]

/-- The download issues no delete call and no prompt. -/
theorem GetVaultInventory_trace (w : World) (accountId vaultName jobId : String) :
    deleteArchiveCalls (GetVaultInventory w accountId vaultName jobId).1 = [] ∧
    deleteVaultCalls (GetVaultInventory w accountId vaultName jobId).1 = [] ∧
    prompts (GetVaultInventory w accountId vaultName jobId).1 = [] ∧
    loggedDeleteErrors (GetVaultInventory w accountId vaultName jobId).1 = [] := by
  unfold GetVaultInventory
  rcases w.GetJobOutput accountId jobId vaultName with ⟨out, err⟩
  rcases out with _ | ⟨⟨_ | rd⟩⟩ <;> cases err <;> dsimp only <;>
    first
    | (simp [deleteArchiveCalls, deleteVaultCalls, prompts, loggedDeleteErrors]; done)
    | (cases (jsonUnmarshal rd.data VaultInventory.zero).2 <;>
        simp [deleteArchiveCalls, deleteVaultCalls, prompts, loggedDeleteErrors])

theorem deleteArchives_calls (w : World) (accountId vaultName : String) (k : Nat)
    (l : List ArchiveList) :
    deleteArchiveCalls (deleteArchives w accountId vaultName k l) =
      l.map (fun a => (accountId, vaultName, a.ArchiveID)) ∧
    deleteVaultCalls (deleteArchives w accountId vaultName k l) = [] ∧
    prompts (deleteArchives w accountId vaultName k l) = [] := by
  induction l generalizing k with
  | nil => simp [deleteArchives, deleteArchiveCalls, deleteVaultCalls, prompts]
  | cons a l ih =>
    obtain ⟨h1, h2, h3⟩ := ih (k + 1)
    simp only [deleteArchives, DeleteArchive]
    cases w.DeleteArchive k accountId vaultName a.ArchiveID <;>
      simp [deleteArchiveCalls_append, deleteVaultCalls_append, prompts_append, h1, h2, h3,
        deleteArchiveCalls, deleteVaultCalls, prompts]

theorem loggedDeleteErrors_deleteArchives (w : World) (accountId vaultName : String) (k : Nat)
    (l : List ArchiveList) :
    loggedDeleteErrors (deleteArchives w accountId vaultName k l) =
      (l.enumFrom k).filterMap (fun p => w.DeleteArchive p.1 accountId vaultName p.2.ArchiveID) := by
  induction l generalizing k with
  | nil => simp [deleteArchives, loggedDeleteErrors]
  | cons a l ih =>
    simp only [deleteArchives, DeleteArchive, List.enumFrom_cons, List.filterMap_cons]
    cases w.DeleteArchive k accountId vaultName a.ArchiveID <;>
      simp [loggedDeleteErrors_append, loggedDeleteErrors, ih]

theorem appendJobIds_of_set (sorted : List GlacierJobDescription) (jobs : List String)
    (hset : ∀ j ∈ sorted, j.JobId ≠ none) :
    ∃ ids, ids.map some = sorted.map (fun j => j.JobId) ∧
      appendJobIds jobs sorted = some (jobs ++ ids) := by
  induction sorted generalizing jobs with
  | nil => exact ⟨[], rfl, by simp [appendJobIds]⟩
  | cons j sorted ih =>
    cases hj : j.JobId with
    | none => exact absurd hj (hset j (by simp))
    | some id =>
      obtain ⟨ids, hids, happ⟩ := ih (jobs ++ [id]) (fun j hj => hset j (by simp [hj]))
      exact ⟨id :: ids, by simp [hids, hj], by simp [appendJobIds, hj, happ]⟩

/-! ## Decoding -/

theorem matchKey_foldName {φ : Type} (all : List φ) (jsonName : φ → String) (key : String)
    (f : φ) (h : matchKey all jsonName key = some f) :
    foldName (jsonName f) = foldName key := by
  unfold matchKey at h
  split at h
  · rename_i g hg
    have := List.find?_some hg
    simp only [Option.some.injEq] at h
    subst h
    simp only [decide_eq_true_eq] at this
    rw [this]
  · have := List.find?_some h
    simpa using this

theorem storeString_err (cur : String) (v : Json) :
    (storeString cur v).2 = none ∨ ∃ k t, (storeString cur v).2 = some (.unmarshalType k t) := by
  cases v <;> simp [storeString]

theorem saveError_form (saved new : Option GoError)
    (hs : saved = none ∨ ∃ k t, saved = some (.unmarshalType k t))
    (hn : new = none ∨ ∃ k t, new = some (.unmarshalType k t)) :
    saveError saved new = none ∨ ∃ k t, saveError saved new = some (.unmarshalType k t) := by
  rcases hs with rfl | ⟨k, t, rfl⟩
  · simpa [saveError] using hn
  · exact Or.inr ⟨k, t, rfl⟩

/-- Members that do not match `ArchiveList` leave the slice empty. -/
theorem decodeInventoryMember_keeps_empty (st : DecodeState) (key : String) (v : Json)
    (hkey : foldName key ≠ foldName "ArchiveList")
    (hst : st.inventory.ArchiveList = [] ∧
      (st.err = none ∨ ∃ k t, st.err = some (.unmarshalType k t))) :
    (decodeInventoryMember st key v).inventory.ArchiveList = [] ∧
      ((decodeInventoryMember st key v).err = none ∨
        ∃ k t, (decodeInventoryMember st key v).err = some (.unmarshalType k t)) := by
  unfold decodeInventoryMember
  cases hm : matchKey InventoryField.all InventoryField.jsonName key with
  | none => exact hst
  | some f =>
    have hf := matchKey_foldName _ _ _ _ hm
    cases f with
    | ArchiveList => exact absurd hf.symm hkey
    | VaultARN => exact ⟨hst.1, saveError_form _ _ hst.2 (storeString_err _ _)⟩
    | InventoryDate => exact ⟨hst.1, saveError_form _ _ hst.2 (storeString_err _ _)⟩

theorem decodeInventory_members_keep_empty (members : List (String × Json)) (st : DecodeState)
    (hno : ∀ m ∈ members, foldName m.1 ≠ foldName "ArchiveList")
    (hst : st.inventory.ArchiveList = [] ∧
      (st.err = none ∨ ∃ k t, st.err = some (.unmarshalType k t))) :
    (members.foldl (fun st m => decodeInventoryMember st m.1 m.2) st).inventory.ArchiveList = [] ∧
      ((members.foldl (fun st m => decodeInventoryMember st m.1 m.2) st).err = none ∨
        ∃ k t, (members.foldl (fun st m => decodeInventoryMember st m.1 m.2) st).err =
          some (.unmarshalType k t)) := by
  induction members generalizing st with
  | nil => exact hst
  | cons m members ih =>
    simp only [List.foldl_cons]
    exact ih _ (fun m' hm' => hno m' (by simp [hm']))
      (decodeInventoryMember_keeps_empty st m.1 m.2 (hno m (by simp)) hst)

/-- The result of `GetVaultInventory` once the download has handed over a
body. -/
theorem GetVaultInventory_of_body (w : World) (accountId vaultName jobId : String)
    (output : GetJobOutputOutput) (reader : Reader)
    (hresp : (w.GetJobOutput accountId jobId vaultName).1 = some output)
    (hbody : output.Body = some reader) :
    (GetVaultInventory w accountId vaultName jobId).2 =
      match (jsonUnmarshal reader.data VaultInventory.zero).2 with
      | some err => .error err
      | none => .ok (jsonUnmarshal reader.data VaultInventory.zero).1 := by
  unfold GetVaultInventory
  simp only [hresp, hbody]
  cases (jsonUnmarshal reader.data VaultInventory.zero).2 <;> rfl

theorem matchKey_ArchiveId :
    matchKey ArchiveField.all ArchiveField.jsonName "ArchiveId" = some .ArchiveID := by decide
theorem matchKey_ArchiveDescription :
    matchKey ArchiveField.all ArchiveField.jsonName "ArchiveDescription" =
      some .ArchiveDescription := by decide
theorem matchKey_CreationDate :
    matchKey ArchiveField.all ArchiveField.jsonName "CreationDate" = some .CreationDate := by
  decide
theorem matchKey_Size :
    matchKey ArchiveField.all ArchiveField.jsonName "Size" = some .Size := by decide
theorem matchKey_SHA256TreeHash :
    matchKey ArchiveField.all ArchiveField.jsonName "SHA256TreeHash" = some .SHA256TreeHash := by
  decide
theorem matchKey_VaultARN :
    matchKey InventoryField.all InventoryField.jsonName "VaultARN" = some .VaultARN := by decide
theorem matchKey_InventoryDate :
    matchKey InventoryField.all InventoryField.jsonName "InventoryDate" = some .InventoryDate := by
  decide
theorem matchKey_ArchiveList :
    matchKey InventoryField.all InventoryField.jsonName "ArchiveList" = some .ArchiveList := by
  decide

theorem saveError_none_right (e : Option GoError) : saveError e none = e := by
  cases e <;> rfl

/-- Decoding the members of a well-formed archive entry does not depend on
their order. -/
theorem decodeArchiveMember_comm (a : ArchiveList) (hlo : minInt64 ≤ a.Size)
    (hhi : a.Size ≤ maxInt64) (x : String × Json) (hx : x ∈ archiveMembers a)
    (y : String × Json) (hy : y ∈ archiveMembers a) (z : ArchiveList × Option GoError) :
    (fun (st : ArchiveList × Option GoError) (m : String × Json) =>
        ((decodeArchiveMember st.1 m.1 m.2).1, saveError st.2 (decodeArchiveMember st.1 m.1 m.2).2))
      ((fun (st : ArchiveList × Option GoError) (m : String × Json) =>
        ((decodeArchiveMember st.1 m.1 m.2).1,
          saveError st.2 (decodeArchiveMember st.1 m.1 m.2).2)) z x) y =
    (fun (st : ArchiveList × Option GoError) (m : String × Json) =>
        ((decodeArchiveMember st.1 m.1 m.2).1, saveError st.2 (decodeArchiveMember st.1 m.1 m.2).2))
      ((fun (st : ArchiveList × Option GoError) (m : String × Json) =>
        ((decodeArchiveMember st.1 m.1 m.2).1,
          saveError st.2 (decodeArchiveMember st.1 m.1 m.2).2)) z y) x := by
  simp only [archiveMembers, List.mem_cons, List.mem_singleton, List.not_mem_nil, or_false] at hx hy
  rcases hx with rfl | rfl | rfl | rfl | rfl <;> rcases hy with rfl | rfl | rfl | rfl | rfl <;>
    simp [decodeArchiveMember, matchKey_ArchiveId, matchKey_ArchiveDescription,
      matchKey_CreationDate, matchKey_Size, matchKey_SHA256TreeHash, storeString, storeInt64,
      hlo, hhi, saveError_none_right]

/-- A well-formed archive entry decodes, from the zero value, into the archive
it spells out. -/
theorem decodeArchive_wellFormed (a : ArchiveList) (j : Json) (h : WellFormedArchive a j) :
    decodeArchive ArchiveList.zero j = (a, none) := by
  obtain ⟨members, rfl, hperm, hlo, hhi⟩ := h
  simp only [decodeArchive, decodeArchiveMembers]
  rw [List.Perm.foldl_eq' hperm (fun x hx y hy z =>
    decodeArchiveMember_comm a hlo hhi x (hperm.mem_iff.mp hx) y (hperm.mem_iff.mp hy) z)]
  simp [archiveMembers, decodeArchiveMember, matchKey_ArchiveId, matchKey_ArchiveDescription,
    matchKey_CreationDate, matchKey_Size, matchKey_SHA256TreeHash, storeString, storeInt64,
    hlo, hhi, saveError, ArchiveList.zero]

theorem decodeArchiveItems_wellFormed (archives : List ArchiveList) (items : List Json)
    (h : List.Forall₂ WellFormedArchive archives items) :
    decodeArchiveItems [] items = (archives, none) := by
  induction h with
  | nil => rfl
  | cons hd _ ih =>
    simp [decodeArchiveItems, decodeArchive_wellFormed _ _ hd, ih, saveError]

/-- Decoding the members of a well-formed inventory does not depend on their
order. -/
theorem decodeInventoryMember_comm (inv : VaultInventory) (items : List Json)
    (x : String × Json) (hx : x ∈ inventoryMembers inv items)
    (y : String × Json) (hy : y ∈ inventoryMembers inv items) (z : DecodeState) :
    (fun (st : DecodeState) (m : String × Json) => decodeInventoryMember st m.1 m.2)
      ((fun (st : DecodeState) (m : String × Json) => decodeInventoryMember st m.1 m.2) z x) y =
    (fun (st : DecodeState) (m : String × Json) => decodeInventoryMember st m.1 m.2)
      ((fun (st : DecodeState) (m : String × Json) => decodeInventoryMember st m.1 m.2) z y) x := by
  simp only [inventoryMembers, List.mem_cons, List.mem_singleton, List.not_mem_nil, or_false]
    at hx hy
  rcases hx with rfl | rfl | rfl <;> rcases hy with rfl | rfl | rfl <;>
    first
    | rfl
    | (cases items <;>
        simp [decodeInventoryMember, matchKey_VaultARN, matchKey_InventoryDate,
          matchKey_ArchiveList, decodeArchiveListField, storeString, saveError_none_right])

/-! ## `EmptyVault` by cases of the decoded inventory -/

/-- Behaviour of `EmptyVault` after a failed decoding. -/
theorem EmptyVault_calls_of_error (w : World) (accountId vaultName jobId : String) (e : GoError)
    (herr : (GetVaultInventory w accountId vaultName jobId).2 = .error e) :
    (EmptyVault w accountId vaultName jobId).2 = .error e ∧
    deleteArchiveCalls (EmptyVault w accountId vaultName jobId).1 = [] ∧
    deleteVaultCalls (EmptyVault w accountId vaultName jobId).1 = [] ∧
    prompts (EmptyVault w accountId vaultName jobId).1 = [] := by
  have htr := GetVaultInventory_trace w accountId vaultName jobId
  unfold EmptyVault
  rcases hg : GetVaultInventory w accountId vaultName jobId with ⟨t, r⟩
  rw [hg] at herr htr
  simp only at herr htr
  subst herr
  simp [deleteArchiveCalls_append, deleteVaultCalls_append, prompts_append, htr.1, htr.2.1,
    htr.2.2.1, deleteArchiveCalls, deleteVaultCalls, prompts]

/-- Behaviour of `EmptyVault` on an inventory without archives. -/
theorem EmptyVault_calls_of_empty (w : World) (accountId vaultName jobId : String)
    (inv : VaultInventory)
    (hdec : (GetVaultInventory w accountId vaultName jobId).2 = .ok inv)
    (hempty : inv.ArchiveList = []) :
    deleteArchiveCalls (EmptyVault w accountId vaultName jobId).1 = [] ∧
    (EmptyVault w accountId vaultName jobId).2 = .ok () ∧
    (w.DeleteVaultPrompt = .selected "Yes" →
      deleteVaultCalls (EmptyVault w accountId vaultName jobId).1 = [vaultName]) ∧
    (w.DeleteVaultPrompt ≠ .selected "Yes" →
      deleteVaultCalls (EmptyVault w accountId vaultName jobId).1 = []) := by
  have htr := GetVaultInventory_trace w accountId vaultName jobId
  unfold EmptyVault
  rcases hg : GetVaultInventory w accountId vaultName jobId with ⟨t, r⟩
  rw [hg] at hdec htr
  simp only at hdec htr
  subst hdec
  cases hp : w.DeleteVaultPrompt with
  | selected c =>
    by_cases hc : c = "Yes" <;>
      simp [hempty, PromptAnswer.choice, PromptAnswer.err, hc, deleteArchiveCalls_append,
        deleteVaultCalls_append, htr.1, htr.2.1, deleteArchiveCalls, deleteVaultCalls]
  | failed e =>
    simp [hempty, PromptAnswer.choice, PromptAnswer.err, deleteArchiveCalls_append,
      deleteVaultCalls_append, htr.1, htr.2.1, deleteArchiveCalls, deleteVaultCalls]

theorem decodeInventoryMember_string_ok (st : DecodeState) (key : String) (v : Json)
    (hkey : foldName key ≠ foldName "ArchiveList") (hv : (∃ s, v = .str s) ∨ v = .null)
    (hst : st.err = none) : (decodeInventoryMember st key v).err = none := by
  unfold decodeInventoryMember
  cases hm : matchKey InventoryField.all InventoryField.jsonName key with
  | none => exact hst
  | some f =>
    have hf := matchKey_foldName _ _ _ _ hm
    cases f with
    | ArchiveList => exact absurd hf.symm hkey
    | VaultARN => rcases hv with ⟨s, rfl⟩ | rfl <;> simp [storeString, saveError, hst]
    | InventoryDate => rcases hv with ⟨s, rfl⟩ | rfl <;> simp [storeString, saveError, hst]

theorem decodeInventory_members_string_ok (members : List (String × Json)) (st : DecodeState)
    (hno : ∀ m ∈ members, foldName m.1 ≠ foldName "ArchiveList")
    (hv : ∀ m ∈ members, (∃ s, m.2 = .str s) ∨ m.2 = .null) (hst : st.err = none) :
    (members.foldl (fun st m => decodeInventoryMember st m.1 m.2) st).err = none := by
  induction members generalizing st with
  | nil => exact hst
  | cons m members ih =>
    simp only [List.foldl_cons]
    exact ih _ (fun m' hm' => hno m' (by simp [hm'])) (fun m' hm' => hv m' (by simp [hm']))
      (decodeInventoryMember_string_ok st m.1 m.2 (hno m (by simp)) (hv m (by simp)) hst)

/-! ## Sorting -/

theorem bytesLess_asymm (a b : List Nat) : bytesLess a b = true → bytesLess b a = false := by
  induction a generalizing b with
  | nil => cases b <;> simp [bytesLess]
  | cons x a ih =>
    cases b with
    | nil => simp [bytesLess]
    | cons y b =>
      simp only [bytesLess]
      intro h
      split_ifs at h ⊢
      all_goals first | omega | rfl | exact ih b h

theorem bytesLess_negTrans (a b c : List Nat) :
    bytesLess a b = false → bytesLess b c = false → bytesLess a c = false := by
  induction a generalizing b c with
  | nil =>
    cases b with
    | nil => intro _ h; exact h
    | cons y b => simp [bytesLess]
  | cons x a ih =>
    cases b with
    | nil => cases c <;> simp [bytesLess]
    | cons y b =>
      cases c with
      | nil => simp [bytesLess]
      | cons z c =>
        simp only [bytesLess]
        intro h1 h2
        split_ifs at h1 h2 ⊢
        all_goals first | omega | rfl | exact ih b c h1 h2

theorem lessCreationDate_asymm (a b : GlacierJobDescription) :
    lessCreationDate a b = some true → lessCreationDate b a = some false := by
  unfold lessCreationDate
  cases a.CreationDate <;> cases b.CreationDate <;> simp [stringLess]
  exact bytesLess_asymm _ _

theorem lessCreationDate_negTrans (a b c : GlacierJobDescription) :
    lessCreationDate a b = some false → lessCreationDate b c = some false →
      lessCreationDate a c = some false := by
  unfold lessCreationDate
  cases a.CreationDate <;> cases b.CreationDate <;> cases c.CreationDate <;> simp [stringLess]
  exact bytesLess_negTrans _ _ _

theorem lessCreationDate_isSome (a b : GlacierJobDescription) (ha : a.CreationDate ≠ none)
    (hb : b.CreationDate ≠ none) :
    lessCreationDate a b = some true ∨ lessCreationDate a b = some false := by
  unfold lessCreationDate
  cases ha' : a.CreationDate with
  | none => exact absurd ha' ha
  | some x =>
    cases hb' : b.CreationDate with
    | none => exact absurd hb' hb
    | some y => cases stringLess x y <;> simp

/-- The inner loop of the insertion sort keeps the sorted part sorted. -/
theorem insertLeftward_sorted (x : GlacierJobDescription) (hx : x.CreationDate ≠ none)
    (rest : List GlacierJobDescription) (hrest : ∀ j ∈ rest, j.CreationDate ≠ none)
    (hs : rest.Pairwise (fun a b => lessCreationDate a b = some false)) :
    ∃ r, insertLeftward lessCreationDate x rest = some r ∧ r.Perm (x :: rest) ∧
      r.Pairwise (fun a b => lessCreationDate a b = some false) := by
  induction rest with
  | nil => exact ⟨[x], rfl, List.Perm.refl _, by simp⟩
  | cons y rest ih =>
    have hy : y.CreationDate ≠ none := hrest y (by simp)
    rw [List.pairwise_cons] at hs
    obtain ⟨r, hr, hperm, hsorted⟩ := ih (fun j hj => hrest j (by simp [hj])) hs.2
    rcases lessCreationDate_isSome x y hx hy with hlt | hge
    · refine ⟨y :: r, by simp [insertLeftward, hlt, hr], ?_, ?_⟩
      · exact (List.Perm.cons y hperm).trans (List.Perm.swap x y rest)
      · rw [List.pairwise_cons]
        refine ⟨fun z hz => ?_, hsorted⟩
        rcases List.mem_cons.mp (hperm.mem_iff.mp hz) with rfl | hz
        · exact lessCreationDate_asymm _ _ hlt
        · exact hs.1 z hz
    · refine ⟨x :: y :: rest, by simp [insertLeftward, hge], List.Perm.refl _, ?_⟩
      rw [List.pairwise_cons, List.pairwise_cons]
      refine ⟨fun z hz => ?_, hs⟩
      rcases List.mem_cons.mp hz with rfl | hz
      · exact hge
      · exact lessCreationDate_negTrans _ _ _ hge (hs.1 z hz)

theorem insertionLoop_sorted (jobs sorted : List GlacierJobDescription)
    (hjobs : ∀ j ∈ jobs, j.CreationDate ≠ none) (hsorted : ∀ j ∈ sorted, j.CreationDate ≠ none)
    (hs : sorted.Pairwise (fun a b => lessCreationDate a b = some false)) :
    ∃ r, jobs.foldlM (fun acc x => insertLeftward lessCreationDate x acc) sorted = some r ∧
      r.Perm (jobs ++ sorted) ∧ r.Pairwise (fun a b => lessCreationDate a b = some false) := by
  induction jobs generalizing sorted with
  | nil => exact ⟨sorted, rfl, List.Perm.refl _, hs⟩
  | cons x jobs ih =>
    obtain ⟨r, hr, hperm, hrs⟩ :=
      insertLeftward_sorted x (hjobs x (by simp)) sorted hsorted hs
    obtain ⟨r2, hr2, hperm2, hrs2⟩ := ih r (fun j hj => hjobs j (by simp [hj]))
      (fun j hj => by
        rcases List.mem_cons.mp (hperm.mem_iff.mp hj) with rfl | hj
        · exact hjobs _ (by simp)
        · exact hsorted j hj) hrs
    refine ⟨r2, by simp [List.foldlM, hr, hr2], ?_, hrs2⟩
    refine hperm2.trans ?_
    refine (List.Perm.append_left jobs hperm).trans ?_
    exact @List.perm_middle _ x jobs sorted

/-- Go's insertion sort meets the guarantee of `sort.Slice`. -/
theorem insertionSortLessFunc_sorts : SortsByCreationDate insertionSortLessFunc := by
  intro jobs hjobs
  obtain ⟨r, hr, hperm, hrs⟩ := insertionLoop_sorted jobs [] hjobs (by simp) (by simp)
  refine ⟨r.reverse, by simp [insertionSortLessFunc, hr], ?_, ?_⟩
  · exact (List.reverse_perm r).trans (by simpa using hperm)
  · rw [List.pairwise_reverse]
    exact hrs

theorem lessCreationDate_self (a : GlacierJobDescription) (ha : a.CreationDate ≠ none) :
    lessCreationDate a a = some false := by
  rcases lessCreationDate_isSome a a ha ha with h | h
  · exact lessCreationDate_asymm a a h
  · exact h

/-- Whatever the sorting routine, `GetMostRecentJob` returns a job that no job
of the slice precedes in creation date: the oldest one. -/
theorem GetMostRecentJob_returns_minimum (sortSlice : SliceSort)
    (hsort : SortsByCreationDate sortSlice) (jobs : List GlacierJobDescription)
    (hne : jobs ≠ []) (hset : ∀ j ∈ jobs, j.CreationDate ≠ none) :
    ∃ job, GetMostRecentJob sortSlice jobs = .ok job ∧ job ∈ jobs ∧
      ∀ k ∈ jobs, lessCreationDate k job = some false := by
  obtain ⟨sorted, hs, hperm, hasc⟩ := hsort jobs hset
  cases sorted with
  | nil => exact absurd hperm.symm.eq_nil hne
  | cons job rest =>
    rw [List.pairwise_cons] at hasc
    refine ⟨job, by simp [GetMostRecentJob, hs], hperm.mem_iff.mp (by simp), fun k hk => ?_⟩
    rcases List.mem_cons.mp (hperm.mem_iff.mpr hk) with rfl | hk
    · exact lessCreationDate_self _ (hset _ hk)
    · exact hasc.1 k hk

/-! ## The claims -/

/-- C1: whatever the remote responses and the operator's answer, a run of
`EmptyVault` whose decoded inventory lists at least one archive issues no
`DeleteVault` call. -/
theorem EmptyVault_nonempty_no_DeleteVault (w : World) (accountId vaultName jobId : String)
    (inv : VaultInventory)
    (hdec : (GetVaultInventory w accountId vaultName jobId).2 = .ok inv)
    (hne : inv.ArchiveList ≠ []) :
    deleteVaultCalls (EmptyVault w accountId vaultName jobId).1 = [] := by
  have htr := GetVaultInventory_trace w accountId vaultName jobId
  have hd := deleteArchives_calls w accountId vaultName 0 inv.ArchiveList
  unfold EmptyVault
  rcases hg : GetVaultInventory w accountId vaultName jobId with ⟨t, r⟩
  rw [hg] at hdec htr
  simp only at hdec htr
  subst hdec
  have hlen : inv.ArchiveList.length ≠ 0 := by simpa using hne
  simp [hlen, deleteVaultCalls_append, htr.2.1, hd.2.1, deleteVaultCalls]

/-- Witness of C1: an inventory of two archives, the operator ready to answer
"Yes". -/
theorem EmptyVault_nonempty_no_DeleteVault_witness :
    (GetVaultInventory (exampleWorld (.document (exampleInventoryJson ["A1", "A2"])) []
        (.selected "Yes")) "123456789012" "photos" "J3").2 = .ok (exampleInventory ["A1", "A2"]) ∧
    (exampleInventory ["A1", "A2"]).ArchiveList ≠ [] ∧
    deleteVaultCalls (EmptyVault (exampleWorld (.document (exampleInventoryJson ["A1", "A2"])) []
        (.selected "Yes")) "123456789012" "photos" "J3").1 = [] :=
  ⟨by decide, by decide,
    EmptyVault_nonempty_no_DeleteVault _ _ _ _ (exampleInventory ["A1", "A2"]) (by decide)
      (by decide)⟩

/-- C2: for a decoded inventory of `N ≥ 1` archives and any outcomes of the
individual calls, the `DeleteArchive` calls of `EmptyVault` are exactly the
`N` listed archive ids, one call per entry, in listed order, each for the
given account and vault. -/
theorem EmptyVault_deletes_each_archive (w : World) (accountId vaultName jobId : String)
    (inv : VaultInventory)
    (hdec : (GetVaultInventory w accountId vaultName jobId).2 = .ok inv)
    (hN : 1 ≤ inv.ArchiveList.length) :
    deleteArchiveCalls (EmptyVault w accountId vaultName jobId).1 =
        inv.ArchiveList.map (fun a => (accountId, vaultName, a.ArchiveID)) ∧
    (deleteArchiveCalls (EmptyVault w accountId vaultName jobId).1).length =
        inv.ArchiveList.length := by
  have htr := GetVaultInventory_trace w accountId vaultName jobId
  have hd := deleteArchives_calls w accountId vaultName 0 inv.ArchiveList
  have key : deleteArchiveCalls (EmptyVault w accountId vaultName jobId).1 =
      inv.ArchiveList.map (fun a => (accountId, vaultName, a.ArchiveID)) := by
    unfold EmptyVault
    rcases hg : GetVaultInventory w accountId vaultName jobId with ⟨t, r⟩
    rw [hg] at hdec htr
    simp only at hdec htr
    subst hdec
    have hlen : inv.ArchiveList.length ≠ 0 := by omega
    simp [hlen, deleteArchiveCalls_append, htr.1, hd.1, deleteArchiveCalls]
  exact ⟨key, by rw [key, List.length_map]⟩

/-- Witness of C2: three archives, the first and the last deletion fail. -/
theorem EmptyVault_deletes_each_archive_witness :
    (GetVaultInventory (exampleWorld (.document (exampleInventoryJson ["A1", "A2", "A3"])) [0, 2]
        (.selected "No")) "123456789012" "photos" "J3").2 =
      .ok (exampleInventory ["A1", "A2", "A3"]) ∧
    1 ≤ (exampleInventory ["A1", "A2", "A3"]).ArchiveList.length ∧
    deleteArchiveCalls (EmptyVault (exampleWorld (.document (exampleInventoryJson ["A1", "A2", "A3"]))
        [0, 2] (.selected "No")) "123456789012" "photos" "J3").1 =
      [("123456789012", "photos", "A1"), ("123456789012", "photos", "A2"),
        ("123456789012", "photos", "A3")] :=
  ⟨by decide, by decide,
    (EmptyVault_deletes_each_archive _ _ _ _ (exampleInventory ["A1", "A2", "A3"]) (by decide)
      (by decide)).1⟩

/-- C3 (the code at the failing input): of a newer and an older job
`GetMostRecentJob` returns the older one. -/
theorem GetMostRecentJob_returns_oldest :
    GetMostRecentJob insertionSortLessFunc
        [⟨some "J-new", some "2024-03-01T00:00:00Z"⟩, ⟨some "J-old", some "2023-03-01T00:00:00Z"⟩] =
      .ok ⟨some "J-old", some "2023-03-01T00:00:00Z"⟩ ∧
    stringLess "2023-03-01T00:00:00Z" "2024-03-01T00:00:00Z" = true := by
  decide

/-- C4, as stated, fails: an object with `VaultARN` and `InventoryDate` but no
`ArchiveList` decodes without error into an inventory with no archives, and
`EmptyVault` then deletes the vault when the operator selects "Yes". -/
theorem GetVaultInventory_accepts_missing_ArchiveList :
    (GetVaultInventory
        (exampleWorld (.document (.obj [("VaultARN", .str "arn:aws:glacier:vaults/photos"),
          ("InventoryDate", .str "2023-02-01T00:00:00Z")])) [] (.selected "Yes"))
        "123456789012" "photos" "J3").2 =
      .ok ⟨"arn:aws:glacier:vaults/photos", "2023-02-01T00:00:00Z", []⟩ ∧
    deleteVaultCalls (EmptyVault
        (exampleWorld (.document (.obj [("VaultARN", .str "arn:aws:glacier:vaults/photos"),
          ("InventoryDate", .str "2023-02-01T00:00:00Z")])) [] (.selected "Yes"))
        "123456789012" "photos" "J3").1 = ["photos"] := by
  decide

/-- C4, amended: for a job output that is a JSON object with no member
matching `ArchiveList`, the missing member is no error: `GetVaultInventory`
returns an inventory with an empty `ArchiveList` (always so when the members
are strings or null), or else the type error of another member.  `EmptyVault`
on that payload issues no `DeleteArchive` call; it issues `DeleteVault` once if
the payload decoded and the operator selects "Yes", and never otherwise: not
on another answer or a failed prompt, and not, whatever the answer, when the
decoding failed, in which case it returns the error without prompting. -/
theorem EmptyVault_payload_without_ArchiveList (w : World) (accountId vaultName jobId : String)
    (output : GetJobOutputOutput) (reader : Reader) (members : List (String × Json))
    (hresp : (w.GetJobOutput accountId jobId vaultName).1 = some output)
    (hbody : output.Body = some reader)
    (hdata : reader.data = .document (.obj members))
    (hno : ∀ m ∈ members, foldName m.1 ≠ foldName "ArchiveList") :
    ((∃ inv, (GetVaultInventory w accountId vaultName jobId).2 = .ok inv ∧ inv.ArchiveList = []) ∨
      ∃ k t, (GetVaultInventory w accountId vaultName jobId).2 = .error (.unmarshalType k t)) ∧
    ((∀ m ∈ members, (∃ s, m.2 = .str s) ∨ m.2 = .null) →
      ∃ inv, (GetVaultInventory w accountId vaultName jobId).2 = .ok inv ∧ inv.ArchiveList = []) ∧
    deleteArchiveCalls (EmptyVault w accountId vaultName jobId).1 = [] ∧
    (w.DeleteVaultPrompt ≠ .selected "Yes" →
      deleteVaultCalls (EmptyVault w accountId vaultName jobId).1 = []) ∧
    (∀ inv, (GetVaultInventory w accountId vaultName jobId).2 = .ok inv →
      w.DeleteVaultPrompt = .selected "Yes" →
        deleteVaultCalls (EmptyVault w accountId vaultName jobId).1 = [vaultName]) ∧
    (∀ e, (GetVaultInventory w accountId vaultName jobId).2 = .error e →
      (EmptyVault w accountId vaultName jobId).2 = .error e ∧
      deleteVaultCalls (EmptyVault w accountId vaultName jobId).1 = [] ∧
      prompts (EmptyVault w accountId vaultName jobId).1 = []) := by
  have hg := GetVaultInventory_of_body w accountId vaultName jobId output reader hresp hbody
  have hinv := decodeInventory_members_keep_empty members ⟨VaultInventory.zero, [], none⟩ hno
    ⟨rfl, Or.inl rfl⟩
  have hok := decodeInventory_members_string_ok members ⟨VaultInventory.zero, [], none⟩ hno
  simp only [hdata, jsonUnmarshal, decodeInventory] at hg
  have hcases : (∃ inv, (GetVaultInventory w accountId vaultName jobId).2 = .ok inv ∧
      inv.ArchiveList = []) ∨
      ∃ k t, (GetVaultInventory w accountId vaultName jobId).2 = .error (.unmarshalType k t) := by
    rcases hinv.2 with h | ⟨k, t, h⟩
    · rw [h] at hg
      exact Or.inl ⟨_, hg, hinv.1⟩
    · rw [h] at hg
      exact Or.inr ⟨k, t, hg⟩
  refine ⟨hcases, ?_, ?_, ?_, ?_, ?_⟩
  rotate_right
  · intro e he
    have h := EmptyVault_calls_of_error w accountId vaultName jobId e he
    exact ⟨h.1, h.2.2.1, h.2.2.2⟩
  · intro hv
    rw [hok hv rfl] at hg
    exact ⟨_, hg, hinv.1⟩
  · rcases hcases with ⟨inv, h, he⟩ | ⟨k, t, h⟩
    · exact (EmptyVault_calls_of_empty w accountId vaultName jobId inv h he).1
    · exact (EmptyVault_calls_of_error w accountId vaultName jobId _ h).2.1
  · intro hp
    rcases hcases with ⟨inv, h, he⟩ | ⟨k, t, h⟩
    · exact (EmptyVault_calls_of_empty w accountId vaultName jobId inv h he).2.2.2 hp
    · exact (EmptyVault_calls_of_error w accountId vaultName jobId _ h).2.2.1
  · intro inv h hp
    rcases hcases with ⟨inv', h', he⟩ | ⟨k, t, h'⟩
    · exact (EmptyVault_calls_of_empty w accountId vaultName jobId inv' h' he).2.2.1 hp
    · rw [h] at h'
      cases h'

/-- Witness of the amended C4: the payload `{"vaultARN": "a", "Note": 7}`
decodes and issues no `DeleteArchive` call; the payload `{"VaultARN": 7}` is a
type error, after which no `DeleteVault` call is issued although the operator
would select "Yes". -/
theorem EmptyVault_payload_without_ArchiveList_witness :
    (∀ m ∈ [("vaultARN", Json.str "a"), ("Note", Json.num (.integer 7))],
      foldName m.1 ≠ foldName "ArchiveList") ∧
    (GetVaultInventory (exampleWorld (.document (.obj [("vaultARN", Json.str "a"),
        ("Note", Json.num (.integer 7))])) [] (.selected "Yes")) "123456789012" "photos" "J3").2 =
      .ok ⟨"a", "", []⟩ ∧
    deleteArchiveCalls (EmptyVault (exampleWorld (.document (.obj [("vaultARN", Json.str "a"),
        ("Note", Json.num (.integer 7))])) [] (.selected "Yes")) "123456789012" "photos" "J3").1 =
      [] ∧
    (∀ m ∈ [("VaultARN", Json.num (.integer 7))], foldName m.1 ≠ foldName "ArchiveList") ∧
    (GetVaultInventory (exampleWorld (.document (.obj [("VaultARN", Json.num (.integer 7))])) []
        (.selected "Yes")) "123456789012" "photos" "J3").2 =
      .error (.unmarshalType "number" "string") ∧
    deleteVaultCalls (EmptyVault (exampleWorld (.document (.obj [("VaultARN",
        Json.num (.integer 7))])) [] (.selected "Yes")) "123456789012" "photos" "J3").1 = [] :=
  ⟨by decide, by decide,
    (EmptyVault_payload_without_ArchiveList
      (exampleWorld (.document (.obj [("vaultARN", Json.str "a"),
        ("Note", Json.num (.integer 7))])) [] (.selected "Yes")) "123456789012" "photos" "J3"
      ⟨some ⟨.document (.obj [("vaultARN", Json.str "a"), ("Note", Json.num (.integer 7))]), none⟩⟩
      ⟨.document (.obj [("vaultARN", Json.str "a"), ("Note", Json.num (.integer 7))]), none⟩
      _ rfl rfl rfl (by decide)).2.2.1,
    by decide, by decide,
    ((EmptyVault_payload_without_ArchiveList
      (exampleWorld (.document (.obj [("VaultARN", Json.num (.integer 7))])) []
        (.selected "Yes")) "123456789012" "photos" "J3"
      ⟨some ⟨.document (.obj [("VaultARN", Json.num (.integer 7))]), none⟩⟩
      ⟨.document (.obj [("VaultARN", Json.num (.integer 7))]), none⟩
      _ rfl rfl rfl (by decide)).2.2.2.2.2 (.unmarshalType "number" "string") (by decide)).2.1⟩

/-- C5, as stated, fails: with two archives, the run in which the second
deletion fails returns the same result as the run in which both succeed. -/
theorem EmptyVault_result_same_on_failure :
    (exampleWorld (.document (exampleInventoryJson ["A1", "A2"])) [1] (.selected "No")).DeleteArchive
        1 "123456789012" "photos" "A2" = some (.failure "ServiceUnavailable") ∧
    (EmptyVault (exampleWorld (.document (exampleInventoryJson ["A1", "A2"])) [1] (.selected "No"))
        "123456789012" "photos" "J3").2 =
      (EmptyVault (exampleWorld (.document (exampleInventoryJson ["A1", "A2"])) [] (.selected "No"))
        "123456789012" "photos" "J3").2 := by
  decide

/-- C5, amended: for a decoded inventory of `N ≥ 1` archives and any outcomes
of the individual calls, `EmptyVault` returns nil; a failed deletion shows only
in the log, which holds one "error deleting archive" line per failed call, with
that call's error, in call order. -/
theorem EmptyVault_returns_nil_and_logs_failures (w : World)
    (accountId vaultName jobId : String) (inv : VaultInventory)
    (hdec : (GetVaultInventory w accountId vaultName jobId).2 = .ok inv)
    (hN : 1 ≤ inv.ArchiveList.length) :
    (EmptyVault w accountId vaultName jobId).2 = .ok () ∧
    loggedDeleteErrors (EmptyVault w accountId vaultName jobId).1 =
      inv.ArchiveList.enum.filterMap
        (fun p => w.DeleteArchive p.1 accountId vaultName p.2.ArchiveID) := by
  have htr := GetVaultInventory_trace w accountId vaultName jobId
  have hd := loggedDeleteErrors_deleteArchives w accountId vaultName 0 inv.ArchiveList
  unfold EmptyVault
  rcases hg : GetVaultInventory w accountId vaultName jobId with ⟨t, r⟩
  rw [hg] at hdec htr
  simp only at hdec htr
  subst hdec
  have hlen : inv.ArchiveList.length ≠ 0 := by omega
  simp [hlen, loggedDeleteErrors_append, htr.2.2.2, hd, loggedDeleteErrors, List.enum]

/-- Witness of the amended C5: two archives, the second deletion fails. -/
theorem EmptyVault_returns_nil_and_logs_failures_witness :
    (GetVaultInventory (exampleWorld (.document (exampleInventoryJson ["A1", "A2"])) [1]
        (.selected "No")) "123456789012" "photos" "J3").2 = .ok (exampleInventory ["A1", "A2"]) ∧
    1 ≤ (exampleInventory ["A1", "A2"]).ArchiveList.length ∧
    (EmptyVault (exampleWorld (.document (exampleInventoryJson ["A1", "A2"])) [1] (.selected "No"))
        "123456789012" "photos" "J3").2 = .ok () :=
  ⟨by decide, by decide,
    (EmptyVault_returns_nil_and_logs_failures _ _ _ _ (exampleInventory ["A1", "A2"]) (by decide)
      (by decide)).1⟩

/-- C6: when `GetVaultInventory` returns the error `e`, `EmptyVault` returns
exactly `e` and issues no `DeleteArchive` call, no `DeleteVault` call and no
prompt. -/
theorem EmptyVault_propagates_inventory_error (w : World) (accountId vaultName jobId : String)
    (e : GoError)
    (herr : (GetVaultInventory w accountId vaultName jobId).2 = .error e) :
    (EmptyVault w accountId vaultName jobId).2 = .error e ∧
    deleteArchiveCalls (EmptyVault w accountId vaultName jobId).1 = [] ∧
    deleteVaultCalls (EmptyVault w accountId vaultName jobId).1 = [] ∧
    prompts (EmptyVault w accountId vaultName jobId).1 = [] :=
  EmptyVault_calls_of_error w accountId vaultName jobId e herr

/-- Witness of C6: the job output is not JSON text. -/
theorem EmptyVault_propagates_inventory_error_witness :
    (GetVaultInventory (exampleWorld .invalid [] (.selected "Yes")) "123456789012" "photos"
        "J3").2 = .error .malformedJSON ∧
    (EmptyVault (exampleWorld .invalid [] (.selected "Yes")) "123456789012" "photos" "J3").2 =
      .error .malformedJSON ∧
    deleteArchiveCalls
      (EmptyVault (exampleWorld .invalid [] (.selected "Yes")) "123456789012" "photos" "J3").1 = [] ∧
    deleteVaultCalls
      (EmptyVault (exampleWorld .invalid [] (.selected "Yes")) "123456789012" "photos" "J3").1 = [] ∧
    prompts
      (EmptyVault (exampleWorld .invalid [] (.selected "Yes")) "123456789012" "photos" "J3").1 = [] :=
  ⟨by decide, EmptyVault_propagates_inventory_error _ _ _ _ .malformedJSON (by decide)⟩

/-- C7 (the code at the failing input): when the download fails,
`GetVaultInventory` logs the error and goes on to `output.Body`.  With the nil
output of a failed SDK call that is a nil dereference, and the error is not
returned; were an output handed over with the error, its body would be read
and decoded and the error dropped. -/
theorem GetVaultInventory_failed_download_not_returned :
    GetVaultInventory failedDownloadWorld "123456789012" "photos" "J3" =
      ([.GetJobOutput "123456789012" "J3" "photos",
        .Log (.errorDescribingJob (.failure "ResourceNotFound"))], .panic) ∧
    GetVaultInventory failedDownloadWithBodyWorld "123456789012" "photos" "J3" =
      ([.GetJobOutput "123456789012" "J3" "photos",
        .Log (.errorDescribingJob (.failure "Throttled")), .ReadAll, .Unmarshal],
        .ok (exampleInventory ["A1"])) := by
  decide

/-- C8: a well-formed inventory payload (an object with the string members
`VaultARN` and `InventoryDate` and the array member `ArchiveList` of `k`
well-formed archive entries, members in any order) is decoded by
`GetVaultInventory` without error into the inventory it spells out: every
field equals the payload's value and the `k` archives come in the payload's
order. -/
theorem GetVaultInventory_decodes_wellFormed (w : World) (accountId vaultName jobId : String)
    (output : GetJobOutputOutput) (reader : Reader) (inv : VaultInventory)
    (members : List (String × Json)) (items : List Json)
    (hresp : (w.GetJobOutput accountId jobId vaultName).1 = some output)
    (hbody : output.Body = some reader)
    (hdata : reader.data = .document (.obj members))
    (hmembers : members.Perm (inventoryMembers inv items))
    (hitems : List.Forall₂ WellFormedArchive inv.ArchiveList items) :
    (GetVaultInventory w accountId vaultName jobId).2 = .ok inv ∧
      inv.ArchiveList.length = items.length := by
  obtain ⟨arn, date, archives⟩ := inv
  have hg := GetVaultInventory_of_body w accountId vaultName jobId output reader hresp hbody
  have hdecode : decodeInventory VaultInventory.zero (.obj members) =
      ⟨⟨arn, date, archives⟩, [], none⟩ := by
    simp only [decodeInventory]
    rw [List.Perm.foldl_eq' hmembers (fun x hx y hy z =>
      decodeInventoryMember_comm _ items x (hmembers.mem_iff.mp hx) y (hmembers.mem_iff.mp hy) z)]
    have hdec := decodeArchiveItems_wellFormed _ _ hitems
    simp only at hdec hitems
    cases hitems with
    | nil =>
      simp [inventoryMembers, decodeInventoryMember, matchKey_VaultARN, matchKey_InventoryDate,
        matchKey_ArchiveList, decodeArchiveListField, storeString, saveError, VaultInventory.zero]
    | cons hd tl =>
      simp [inventoryMembers, decodeInventoryMember, matchKey_VaultARN, matchKey_InventoryDate,
        matchKey_ArchiveList, decodeArchiveListField, storeString, saveError, VaultInventory.zero,
        hdec]
  simp only [hdata, jsonUnmarshal, hdecode] at hg
  exact ⟨hg, hitems.length_eq⟩

/-- Witness of C8: a payload with three archives. -/
theorem GetVaultInventory_decodes_wellFormed_witness :
    (inventoryMembers (exampleInventory ["A1", "A2", "A3"])
        [exampleArchiveJson "A1" 1024, exampleArchiveJson "A2" 1024,
          exampleArchiveJson "A3" 1024]).Perm
      (inventoryMembers (exampleInventory ["A1", "A2", "A3"])
        [exampleArchiveJson "A1" 1024, exampleArchiveJson "A2" 1024,
          exampleArchiveJson "A3" 1024]) ∧
    List.Forall₂ WellFormedArchive (exampleInventory ["A1", "A2", "A3"]).ArchiveList
      [exampleArchiveJson "A1" 1024, exampleArchiveJson "A2" 1024, exampleArchiveJson "A3" 1024] ∧
    (GetVaultInventory (exampleWorld (.document (exampleInventoryJson ["A1", "A2", "A3"])) []
        (.selected "No")) "123456789012" "photos" "J3").2 =
      .ok (exampleInventory ["A1", "A2", "A3"]) ∧
    (exampleInventory ["A1", "A2", "A3"]).ArchiveList.length = 3 :=
  have hitems : List.Forall₂ WellFormedArchive (exampleInventory ["A1", "A2", "A3"]).ArchiveList
      [exampleArchiveJson "A1" 1024, exampleArchiveJson "A2" 1024,
        exampleArchiveJson "A3" 1024] :=
    .cons ⟨_, rfl, List.Perm.refl _, by decide, by decide⟩
      (.cons ⟨_, rfl, List.Perm.refl _, by decide, by decide⟩
        (.cons ⟨_, rfl, List.Perm.refl _, by decide, by decide⟩ .nil))
  ⟨List.Perm.refl _, hitems,
    GetVaultInventory_decodes_wellFormed
      (exampleWorld (.document (exampleInventoryJson ["A1", "A2", "A3"])) [] (.selected "No"))
      "123456789012" "photos" "J3"
      ⟨some ⟨.document (exampleInventoryJson ["A1", "A2", "A3"]), none⟩⟩
      ⟨.document (exampleInventoryJson ["A1", "A2", "A3"]), none⟩
      (exampleInventory ["A1", "A2", "A3"]) _ _ rfl rfl rfl (List.Perm.refl _) hitems⟩

/-- C9: when `ListJobs` answers with a list of `n` jobs, each carrying its id
and creation date, `GetRetriavalJobs` returns `n + 2` entries: "Initiate New
Retrieval Job", then the ids of a reordering of those jobs in which creation
dates never decrease, then "Exit"; for `n = 0` these are the two fixed entries.
The sorting routine is any that meets the guarantee of `sort.Slice`. -/
theorem GetRetriavalJobs_lists_jobs_ascending (sortSlice : SliceSort)
    (hsort : SortsByCreationDate sortSlice) (w : World) (accountId vaultName : String)
    (jobList : List GlacierJobDescription)
    (hresp : w.ListJobs accountId vaultName = (some ⟨jobList⟩, none))
    (hset : ∀ j ∈ jobList, j.JobId ≠ none ∧ j.CreationDate ≠ none) :
    ∃ (sorted : List GlacierJobDescription) (ids : List String),
      sorted.Perm jobList ∧
      sorted.Pairwise (fun a b => lessCreationDate b a = some false) ∧
      ids.map some = sorted.map (fun j => j.JobId) ∧
      (GetRetriavalJobs sortSlice w accountId vaultName).2 =
        .ok ("Initiate New Retrieval Job" :: ids ++ ["Exit"]) ∧
      ("Initiate New Retrieval Job" :: ids ++ ["Exit"]).length = jobList.length + 2 ∧
      (jobList = [] → ids = []) := by
  obtain ⟨sorted, hs, hperm, hasc⟩ := hsort jobList (fun j hj => (hset j hj).2)
  obtain ⟨ids, hids, happ⟩ := appendJobIds_of_set sorted ["Initiate New Retrieval Job"]
    (fun j hj => (hset j (hperm.mem_iff.mp hj)).1)
  have hlen : ids.length = jobList.length := by
    have := congrArg List.length hids
    simpa [hperm.length_eq] using this
  refine ⟨sorted, ids, hperm, hasc, hids, ?_, by simp [hlen], ?_⟩
  · simp [GetRetriavalJobs, hresp, hs, happ]
  · intro h
    apply List.eq_nil_of_length_eq_zero
    simp [hlen, h]

/-- Witness of C9: two jobs, listed newest first, sorted by Go's insertion
sort. -/
theorem GetRetriavalJobs_lists_jobs_ascending_witness :
    SortsByCreationDate insertionSortLessFunc ∧
    (exampleWorld .invalid [] (.selected "No")).ListJobs "123456789012" "photos" =
      (some ⟨[⟨some "J-new", some "2024-03-01T00:00:00Z"⟩,
        ⟨some "J-old", some "2023-03-01T00:00:00Z"⟩]⟩, none) ∧
    (GetRetriavalJobs insertionSortLessFunc (exampleWorld .invalid [] (.selected "No"))
        "123456789012" "photos").2 =
      .ok ["Initiate New Retrieval Job", "J-old", "J-new", "Exit"] ∧
    ∃ (sorted : List GlacierJobDescription) (ids : List String),
      sorted.Perm [⟨some "J-new", some "2024-03-01T00:00:00Z"⟩,
        ⟨some "J-old", some "2023-03-01T00:00:00Z"⟩] ∧
      sorted.Pairwise (fun a b => lessCreationDate b a = some false) ∧
      ids.map some = sorted.map (fun j => j.JobId) ∧
      (GetRetriavalJobs insertionSortLessFunc (exampleWorld .invalid [] (.selected "No"))
          "123456789012" "photos").2 = .ok ("Initiate New Retrieval Job" :: ids ++ ["Exit"]) ∧
      ("Initiate New Retrieval Job" :: ids ++ ["Exit"]).length = 2 + 2 ∧
      (([⟨some "J-new", some "2024-03-01T00:00:00Z"⟩, ⟨some "J-old", some "2023-03-01T00:00:00Z"⟩] :
        List GlacierJobDescription) = [] → ids = []) :=
  ⟨insertionSortLessFunc_sorts, rfl, by decide,
    GetRetriavalJobs_lists_jobs_ascending insertionSortLessFunc insertionSortLessFunc_sorts
      (exampleWorld .invalid [] (.selected "No")) "123456789012" "photos" _ rfl (by decide)⟩

/-- C10: when the decoded inventory lists no archive, `EmptyVault` issues no
`DeleteArchive` call and returns no error; it issues `DeleteVault` for the
given vault exactly once when the operator selects "Yes", and not at all on
any other selection or when the prompt fails. -/
theorem EmptyVault_empty_inventory (w : World) (accountId vaultName jobId : String)
    (inv : VaultInventory)
    (hdec : (GetVaultInventory w accountId vaultName jobId).2 = .ok inv)
    (hempty : inv.ArchiveList = []) :
    deleteArchiveCalls (EmptyVault w accountId vaultName jobId).1 = [] ∧
    (EmptyVault w accountId vaultName jobId).2 = .ok () ∧
    (w.DeleteVaultPrompt = .selected "Yes" →
      deleteVaultCalls (EmptyVault w accountId vaultName jobId).1 = [vaultName]) ∧
    (w.DeleteVaultPrompt ≠ .selected "Yes" →
      deleteVaultCalls (EmptyVault w accountId vaultName jobId).1 = []) := by
  exact EmptyVault_calls_of_empty w accountId vaultName jobId inv hdec hempty

/-- Witness of C10: an inventory without archives, the operator selects "Yes". -/
theorem EmptyVault_empty_inventory_witness :
    (GetVaultInventory (exampleWorld (.document (exampleInventoryJson [])) [] (.selected "Yes"))
        "123456789012" "photos" "J2").2 = .ok (exampleInventory []) ∧
    (exampleInventory []).ArchiveList = [] ∧
    deleteArchiveCalls (EmptyVault (exampleWorld (.document (exampleInventoryJson [])) []
        (.selected "Yes")) "123456789012" "photos" "J2").1 = [] ∧
    deleteVaultCalls (EmptyVault (exampleWorld (.document (exampleInventoryJson [])) []
        (.selected "Yes")) "123456789012" "photos" "J2").1 = ["photos"] :=
  ⟨by decide, by decide,
    (EmptyVault_empty_inventory _ _ _ _ (exampleInventory []) (by decide) (by decide)).1,
    (EmptyVault_empty_inventory _ _ _ _ (exampleInventory []) (by decide) (by decide)).2.2.1 rfl⟩

end GlobalWarming
